import Mathlib

/-!
Shallow embedding of the `adn-cli` core (CSV→Markdown processor, template
byte-size filter, configuration store, file naming) and proofs of the
specification's testable properties against it.

Conventions:
* Python exceptions are modelled by `Except AdnError`; the distinct Python
  exception classes used by the code are the constructors of `AdnError`.
* Python `str` operations are modelled over Lean `String` (ASCII whitespace,
  which is all the repository's inputs use).
* Filesystem state is modelled as explicit values threaded through the
  operations (a set of existing paths, the stored configuration document).
-/

namespace Adn

/-! ### Python string helpers -/

/-- The characters Python `str.split()` / `str.strip()` treat as whitespace
(ASCII fragment; the repository's data is ASCII/UTF-8 text). -/
def pyIsSpace (c : Char) : Bool :=
  c = ' ' || c = '\t' || c = '\n' || c = '\r' || c = '\x0b' || c = '\x0c'

/-- Python `str.strip()` with no arguments: drop whitespace from both ends. -/
def pyStrip (s : String) : String :=
  String.mk (((s.toList.dropWhile pyIsSpace).reverse.dropWhile pyIsSpace).reverse)

/-- Worker for `str.split()` (no separator): accumulate the current word
(reversed) and emit it at each whitespace run. -/
def pySplitAux : List Char → List Char → List (List Char)
  | [], acc => if acc.isEmpty then [] else [acc.reverse]
  | c :: rest, acc =>
    if pyIsSpace c then
      if acc.isEmpty then pySplitAux rest []
      else acc.reverse :: pySplitAux rest []
    else pySplitAux rest (c :: acc)

/-- `' '.join(words)` at the character level. -/
def joinWords : List (List Char) → List Char
  | [] => []
  | [w] => w
  | w :: ws => w ++ ' ' :: joinWords ws

/-- Left-pad a digit string with `'0'` to width `w`. -/
def padZeros (w : Nat) (s : String) : String :=
  String.mk (List.replicate (w - s.length) '0') ++ s

/-- Python `f"{n:03d}"`: decimal rendering zero-padded to a total field
width of 3 (sign included), widening naturally beyond 3 digits. -/
def format03d (n : Int) : String :=
  if n < 0 then "-" ++ padZeros 2 (toString n.natAbs)
  else padZeros 3 (toString n.toNat)

/-! ### CSV → Markdown processor (`adn/commands/csv_to_md.py`) -/

/-- The Python exception classes raised by the embedded code. -/
inductive AdnError where
  | fileNotFound
  | fileExists
  | valueError
  | yamlError
deriving Repr, DecidableEq

/-- One CSV data row as produced by `csv.DictReader`: an association list
from column name to cell value. -/
abbrev Record := List (String × String)

/-- Python `dict.get k` on a row (`None` when the column is absent). -/
def rget (r : Record) (k : String) : Option String :=
  (r.find? (fun p => p.1 = k)).map (·.2)

/-- A decoded CSV file: `DictReader.fieldnames` (`none` for an empty file)
and the data rows. `Option CsvDoc` models the result of encoding detection:
`none` when no supported encoding decodes the file. -/
structure CsvDoc where
  fieldnames : Option (List String)
  records : List Record
deriving Repr, DecidableEq

def REQUIRED_COLUMNS : List String := ["source", "doi", "title", "abstract"]

/-- `CSVToMarkdownProcessor.validate_csv`: raises `ValueError` when the file
cannot be decoded or a required column is missing from the header. -/
def validate_csv (decoded : Option CsvDoc) : Except AdnError (List String) :=
  match decoded with
  | none => .error .valueError
  | some d =>
    let columns := (d.fieldnames.getD []).dedup
    let missing := REQUIRED_COLUMNS.filter (fun c => ¬ columns.contains c)
    if missing.isEmpty then .ok columns else .error .valueError

/-- `CSVToMarkdownProcessor.read_csv_data`: returns the rows; raises
`ValueError` both when no encoding decodes the file and when the decoded
row list is empty (`if not data: raise ValueError(...)`). -/
def read_csv_data (decoded : Option CsvDoc) : Except AdnError (List Record) :=
  match decoded with
  | none => .error .valueError
  | some d => if d.records.isEmpty then .error .valueError else .ok d.records

/-- Worker for Python `str.split('\n')`. -/
def splitLinesAux : List Char → List Char → List String
  | [], acc => [String.mk acc.reverse]
  | c :: rest, acc =>
    if c = '\n' then String.mk acc.reverse :: splitLinesAux rest []
    else splitLinesAux rest (c :: acc)

/-- Python `abstract.split('\n')`: split at every newline, keeping empty
pieces (`"".split('\n') == ['']`). -/
def splitLines (s : String) : List String :=
  splitLinesAux s.toList []

/-- Reformat a non-empty (already stripped) abstract: each line is stripped
and given a fixed 2-space indent (`'  ' + line.strip()` when the stripped
line is non-empty, `'  '` otherwise). -/
def formatAbstractLines (abstract : String) : String :=
  String.intercalate "\n"
    ((splitLines abstract).map
      (fun line => if pyStrip line ≠ "" then "  " ++ pyStrip line else "  "))

/-- The `abstract_formatted` value of `create_markdown_content`: an empty
abstract becomes the single line of two spaces. -/
def abstractFormatted (abstract : String) : String :=
  if abstract ≠ "" then formatAbstractLines abstract else "  "

/-- `CSVToMarkdownProcessor.create_markdown_content`. In the shipped tree no
`csv_record` template file exists, so `render_template` raises
`TemplateNotFound` and the hardcoded fallback body is produced. -/
def create_markdown_content (record : Record) : String :=
  let source := pyStrip ((rget record "source").getD "")
  let doi := pyStrip ((rget record "doi").getD "")
  let title := pyStrip ((rget record "title").getD "")
  let abstract := pyStrip ((rget record "abstract").getD "")
  "---\nsource: " ++ source ++ "\ndoi: " ++ doi ++ "\ntitle: \"" ++ title ++
    "\"\nabstract: |\n" ++ abstractFormatted abstract ++
    "\nestado:\n  - procesado\ntags:\n  - documento\n  - investigacion\n---"

/-- One iteration of the `process_csv` loop: write row `ir.2` (index `ir.1`)
unless the write fails, in which case the exception is caught and the row
skipped. -/
def processStep (start : Int) (writeOk : Nat → Bool)
    (acc : Nat × List (String × String)) (ir : Nat × Record) :
    Nat × List (String × String) :=
  if writeOk ir.1 then
    (acc.1 + 1,
     acc.2 ++ [(format03d (start + (ir.1 : Int)) ++ ".md",
                create_markdown_content ir.2)])
  else acc

/-- `CSVToMarkdownProcessor.process_csv`: validate, read, then write one
numbered file per row. `writeOk i` models whether the filesystem write of
row `i` succeeds; a per-row failure is caught and the loop continues.
Returns the count of files created and the (filename, content) pairs
actually written, in order. -/
def process_csv (decoded : Option CsvDoc) (start : Int) (writeOk : Nat → Bool) :
    Except AdnError (Nat × List (String × String)) := do
  let _ ← validate_csv decoded
  let data ← read_csv_data decoded
  if data.isEmpty then
    return (0, [])
  else
    return data.enum.foldl (processStep start writeOk) (0, [])

/-- A CSV file holding only the header row with all required columns. -/
def headerOnlyDoc : CsvDoc :=
  { fieldnames := some ["source", "doi", "title", "abstract"], records := [] }

/-! ### Byte-size filter (`TemplateEngine._filesize_filter`)

The Python code computes with IEEE doubles. Every division performed by the
filter is by `1024.0 = 2^10`, an exact exponent shift on doubles whenever the
operand is a normal number, and the unit boundaries all lie at or below
`1024^4 = 2^40 < 2^53`; the computation is therefore exact and is modelled
over `ℚ`. -/

/-- A Python value reaching the filter: a number (`int` or `float`), or a
non-numeric value together with its `str()` rendering. -/
inductive PyVal where
  | num (q : ℚ)
  | nonNum (s : String)

/-- Round to the nearest integer, ties to even — the rounding `f"{x:.1f}"`
applies to the (exactly represented) value `x * 10`. -/
def roundHalfEven (q : ℚ) : ℤ :=
  if q - ⌊q⌋ < 1/2 then ⌊q⌋
  else if 1/2 < q - ⌊q⌋ then ⌊q⌋ + 1
  else if ⌊q⌋ % 2 = 0 then ⌊q⌋ else ⌊q⌋ + 1

/-- Python `f"{x:.1f}"` on an exactly-represented value. -/
def formatF1 (q : ℚ) : String :=
  (if roundHalfEven (q * 10) < 0 then "-" else "") ++
    toString ((roundHalfEven (q * 10)).natAbs / 10) ++ "." ++
    toString ((roundHalfEven (q * 10)).natAbs % 10)

/-- The unit ladder walked by the filter's `for` loop. -/
def filesizeUnits : List String := ["B", "KB", "MB", "GB"]

/-- The filter's loop: emit the current unit once the running value drops
below 1024, else divide and continue; after the last unit fall through to
the trailing `return f"{size_bytes:.1f} TB"`. -/
def filesizeLoop : List String → ℚ → String
  | [], q => formatF1 q ++ " TB"
  | u :: us, q => if q < 1024 then formatF1 q ++ " " ++ u else filesizeLoop us (q / 1024)

/-- `TemplateEngine._filesize_filter`: non-numeric input is returned as its
`str()` rendering, numeric input goes through the unit ladder. -/
def filesize_filter : PyVal → String
  | .num q => filesizeLoop filesizeUnits q
  | .nonNum s => s

/-! ### Configuration store (`adn/utils/config.py`) -/

/-- A scalar configuration value (string, boolean, or integer). -/
inductive CVal where
  | str (s : String)
  | bool (b : Bool)
  | int (n : Int)
deriving Repr, DecidableEq

/-- A Python `dict` with string keys, as an insertion-ordered association
list with unique keys. -/
abbrev CDict := List (String × CVal)

/-- `d.get(k)` / `d[k]` lookup. -/
def dictGet (m : CDict) (k : String) : Option CVal :=
  (m.find? (fun p => p.1 = k)).map (·.2)

/-- `d[k] = v`: replace the binding in place if the key is present,
otherwise append it. -/
def dictSet : CDict → String → CVal → CDict
  | [], k, v => [(k, v)]
  | p :: rest, k, v => if p.1 = k then (k, v) :: rest else p :: dictSet rest k v

/-- `base.update(overlay)` on a fresh copy of `base`. -/
def dictUpdate (base overlay : CDict) : CDict :=
  overlay.foldl (fun acc p => dictSet acc p.1 p.2) base

/-- `ConfigManager._default_config`, the compiled-in defaults. -/
def default_config : CDict :=
  [("default_template", .str "default"),
   ("output_suffix", .str "_extraccion"),
   ("default_output_dir", .str "."),
   ("log_level", .str "INFO"),
   ("auto_open_generated", .bool false),
   ("preserve_structure", .bool true),
   ("date_format", .str "%d/%m/%Y %H:%M"),
   ("encoding", .str "utf-8"),
   ("max_filename_length", .int 100)]

/-- The content of a config file on disk, as seen through `yaml.safe_load`:
it raises (`malformed`), parses to a non-mapping value (`scalar`, on which
`dict.update` then raises), or parses to a mapping. The empty file is the
empty `mapping` (the code's `safe_load(f) or {}`). `yaml.dump` / `safe_load`
round-trip a mapping; the dump's key sorting is invisible to lookups and
not modelled. -/
inductive FileYaml where
  | malformed
  | scalar (s : String)
  | mapping (m : CDict)
deriving Repr, DecidableEq

/-- The mutable state of a `ConfigManager` plus the part of the filesystem
it owns: the stored config document (`none` = file absent), the in-memory
cache, and the backup copies made so far. -/
structure ConfigState where
  stored : Option FileYaml
  cache : Option CDict
  backups : List FileYaml
deriving Repr, DecidableEq

/-- A fresh manager over an uninitialized store. -/
def uninitState : ConfigState := { stored := none, cache := none, backups := [] }

/-- `ConfigManager.get_config`: serve from cache when populated; raise
`FileNotFoundError` when the file is absent; re-raise `yaml.YAMLError` on a
malformed document; otherwise overlay the parsed mapping on the defaults
and populate the cache. -/
def get_config (st : ConfigState) : Except AdnError (CDict × ConfigState) :=
  match st.cache with
  | some c => .ok (c, st)
  | none =>
    match st.stored with
    | none => .error .fileNotFound
    | some .malformed => .error .yamlError
    | some (.scalar _) => .error .valueError
    | some (.mapping m) =>
      .ok (dictUpdate default_config m, { st with cache := some (dictUpdate default_config m) })

/-- `ConfigManager.get_config_value`: `get_config().get(key, default)`,
falling back to the compiled-in defaults only on `FileNotFoundError`. -/
def get_config_value (st : ConfigState) (key : String) (fallback : Option CVal) :
    Except AdnError (Option CVal × ConfigState) :=
  match get_config st with
  | .ok (c, st') => .ok ((dictGet c key).or fallback, st')
  | .error .fileNotFound => .ok ((dictGet default_config key).or fallback, st)
  | .error e => .error e

/-- `ConfigManager.set_config`: read the current config (defaults when the
file is absent), set the key, write the document back, invalidate the
cache. Errors other than `FileNotFoundError` propagate. -/
def set_config (st : ConfigState) (key : String) (v : CVal) : Except AdnError ConfigState :=
  match get_config st with
  | .ok (config, st') =>
    .ok { st' with stored := some (.mapping (dictSet config key v)), cache := none }
  | .error .fileNotFound =>
    .ok { st with stored := some (.mapping (dictSet default_config key v)), cache := none }
  | .error e => .error e

/-- `ConfigManager.restore_config`, with the state at exit returned
alongside the result (the state is unchanged at every `raise`, which in the
source occurs before any mutation). `backup` is the content at the backup
location (`none` = missing file). A backup that fails to parse raises
`ValueError` — the spec's `MalformedDocument` — before the pre-restore
backup and before the write. -/
def restore_config (st : ConfigState) (backup : Option FileYaml) :
    Except AdnError Unit × ConfigState :=
  match backup with
  | none => (.error .fileNotFound, st)
  | some .malformed => (.error .valueError, st)
  | some b =>
    match st.stored with
    | some cur =>
      (.ok (), { stored := some b, cache := none, backups := st.backups ++ [cur] })
    | none => (.ok (), { stored := some b, cache := none, backups := st.backups })

/-! ### File naming (`adn/utils/file_handler.py`) -/

/-- The characters `FileHandler.clean_filename` replaces with `'_'`. -/
def invalid_chars : List Char := ['<', '>', ':', '"', '/', '\\', '|', '?', '*']

/-- `str.replace` for single characters. -/
def replaceChar (cs : List Char) (a b : Char) : List Char :=
  cs.map (fun c => if c = a then b else c)

/-- `os.path.splitext` on a bare file name (no path separators): split at
the last dot, except that a name whose every character before that dot is
itself a dot has no extension. -/
def splitext (s : String) : String × String :=
  match s.toList.reverse.findIdx? (· = '.') with
  | none => (s, "")
  | some kRev =>
    if (s.toList.take (s.toList.length - 1 - kRev)).all (· = '.') then (s, "")
    else (String.mk (s.toList.take (s.toList.length - 1 - kRev)),
          String.mk (s.toList.drop (s.toList.length - 1 - kRev)))

/-- Python slicing `cs[:stop]` for a possibly negative `stop`. -/
def pySliceTo (cs : List Char) (stop : Int) : List Char :=
  if stop < 0 then cs.take (cs.length - stop.natAbs) else cs.take stop.toNat

/-- The length-independent part of `clean_filename`: replace each invalid
character with `'_'`, collapse whitespace runs (`' '.join(name.split())`),
then replace the remaining single spaces with `'_'`. -/
def cleanCore (filename : String) : String :=
  String.mk
    ((joinWords (pySplitAux
        (invalid_chars.foldl (fun acc c => replaceChar acc c '_') filename.toList) [])).map
      (fun c => if c = ' ' then '_' else c))

/-- `FileHandler.clean_filename` with the configured
`max_filename_length`: the core cleaning followed by the length cap
`name[:max_length - len(ext)] + ext`. -/
def clean_filename (maxLen : Nat) (filename : String) : String :=
  if (cleanCore filename).length > maxLen then
    String.mk (pySliceTo (splitext (cleanCore filename)).1.toList
        ((maxLen : Int) - ((splitext (cleanCore filename)).2.length : Int))) ++
      (splitext (cleanCore filename)).2
  else cleanCore filename

/-- An input (PDF) file: its parent directory and its stem
(`Path.parent`, `Path.stem`). -/
structure InputFile where
  parent : String
  stem : String
deriving Repr, DecidableEq

/-- `FileHandler._generate_output_filename`: sanitized stem + configured
suffix + fixed `.md` extension, inside the given output directory. -/
def generateOutputFilename (maxLen : Nat) (suffix : String) (f : InputFile)
    (outputDir : String) : String :=
  outputDir ++ "/" ++ clean_filename maxLen f.stem ++ suffix ++ ".md"

/-- `FileHandler.is_processed`: the output path computed with the input's
own parent as output directory currently exists. The filesystem is the set
`fs` of existing paths. -/
def is_processed (maxLen : Nat) (suffix : String) (fs : List String) (f : InputFile) : Bool :=
  fs.contains (generateOutputFilename maxLen suffix f f.parent)

/-- `FileHandler.generate_extraction_file` narrowed to the state it
touches: raise `FileNotFoundError` when the input is gone, raise
`FileExistsError` when the output exists and `force` is not set, propagate
a render failure (`renderOk = false`) without writing, else write the
output path into the filesystem. Returns the output path and the new
filesystem. -/
def generate_extraction_file (maxLen : Nat) (suffix : String) (pdfExists : Bool)
    (fs : List String) (f : InputFile) (outputDir : String) (force renderOk : Bool) :
    Except AdnError (String × List String) :=
  if !pdfExists then .error .fileNotFound
  else if fs.contains (generateOutputFilename maxLen suffix f outputDir) && !force then
    .error .fileExists
  else if renderOk then
    .ok (generateOutputFilename maxLen suffix f outputDir,
         (generateOutputFilename maxLen suffix f outputDir) :: fs)
  else .error .valueError

/-- Deleting a path from the filesystem. -/
def deletePath (fs : List String) (p : String) : List String :=
  fs.filter (fun q => q ≠ p)

/-! ### Helper lemmas: Python string operations -/

lemma toList_mk (l : List Char) : (String.mk l).toList = l := rfl

lemma mk_toList (s : String) : String.mk s.toList = s := rfl

lemma mk_append (a b : List Char) : String.mk a ++ String.mk b = String.mk (a ++ b) := rfl

lemma pyStrip_eq (s : String) :
    pyStrip s = String.mk ((s.toList.dropWhile pyIsSpace).rdropWhile pyIsSpace) := rfl

/-- The front-strip is a no-op after a full strip. -/
lemma dropWhile_rdropWhile_dropWhile (p : Char → Bool) (l : List Char) :
    ((l.dropWhile p).rdropWhile p).dropWhile p = (l.dropWhile p).rdropWhile p := by
  obtain ⟨t, ht⟩ := List.rdropWhile_prefix p (l.dropWhile p)
  rcases hn : (l.dropWhile p).rdropWhile p with _ | ⟨a, n⟩
  · simp
  · have hdw : l.dropWhile p = a :: (n ++ t) := by
      rw [← ht, hn]; simp
    have hne : l.dropWhile p ≠ [] := by rw [hdw]; simp
    have hpa : ¬ p a := by
      have := List.head_dropWhile_not p l hne
      simpa [hdw] using this
    simp [List.dropWhile_cons, hpa]

lemma pyStrip_idem (s : String) : pyStrip (pyStrip s) = pyStrip s := by
  rw [pyStrip_eq, pyStrip_eq, toList_mk, dropWhile_rdropWhile_dropWhile,
    List.rdropWhile_idempotent]

lemma pyStrip_empty : pyStrip "" = "" := rfl

/-- Every character of every word produced by the split worker satisfies any
property that holds of the non-whitespace input characters and of the
accumulator. -/
lemma pySplitAux_chars {P : Char → Prop} :
    ∀ (cs acc : List Char), (∀ c ∈ cs, pyIsSpace c = false → P c) → (∀ c ∈ acc, P c) →
      ∀ w ∈ pySplitAux cs acc, ∀ c ∈ w, P c := by
  intro cs
  induction cs with
  | nil =>
    intro acc _ hacc w hw c hc
    simp only [pySplitAux] at hw
    by_cases hae : acc.isEmpty
    · rw [if_pos hae] at hw
      simp at hw
    · rw [if_neg hae] at hw
      rw [List.mem_singleton] at hw
      subst hw
      exact hacc c (by simpa using hc)
  | cons a rest ih =>
    intro acc hcs hacc w hw c hc
    simp only [pySplitAux] at hw
    by_cases ha : pyIsSpace a
    · rw [if_pos ha] at hw
      by_cases hae : acc.isEmpty
      · rw [if_pos hae] at hw
        exact ih [] (fun c hc hns => hcs c (by simp [hc]) hns) (by simp) w hw c hc
      · rw [if_neg hae] at hw
        rcases List.mem_cons.mp hw with hw | hw
        · subst hw
          exact hacc c (by simpa using hc)
        · exact ih [] (fun c hc hns => hcs c (by simp [hc]) hns) (by simp) w hw c hc
    · rw [if_neg ha] at hw
      refine ih (a :: acc) (fun c hc hns => hcs c (by simp [hc]) hns) ?_ w hw c hc
      intro c hc
      rcases List.mem_cons.mp hc with rfl | hc
      · exact hcs c (by simp) (by simpa using ha)
      · exact hacc c hc

/-- On whitespace-free input the split worker returns the single full word. -/
lemma pySplitAux_no_space :
    ∀ (cs : List Char), (∀ c ∈ cs, pyIsSpace c = false) →
      ∀ acc, pySplitAux cs acc =
        if (acc.reverse ++ cs).isEmpty then [] else [acc.reverse ++ cs] := by
  intro cs
  induction cs with
  | nil =>
    intro _ acc
    simp [pySplitAux, List.isEmpty_iff]
  | cons a rest ih =>
    intro h acc
    have ha : pyIsSpace a = false := h a (by simp)
    rw [pySplitAux, if_neg (by simp [ha])]
    rw [ih (fun c hc => h c (by simp [hc])) (a :: acc)]
    simp [List.isEmpty_iff]

lemma replaceChar_of_not_mem {cs : List Char} {a : Char} (b : Char) (h : a ∉ cs) :
    replaceChar cs a b = cs := by
  unfold replaceChar
  rw [List.map_congr_left, List.map_id]
  intro c hc
  have : c ≠ a := fun hca => h (hca ▸ hc)
  simp [this]

lemma foldl_replaceChar_id (L cs : List Char) (h : ∀ a ∈ L, a ∉ cs) :
    L.foldl (fun acc a => replaceChar acc a '_') cs = cs := by
  induction L with
  | nil => rfl
  | cons a L ih =>
    rw [List.foldl_cons, replaceChar_of_not_mem '_' (h a (by simp))]
    exact ih (fun a ha => h a (by simp [ha]))

lemma mem_foldl_replaceChar {L cs : List Char} {c : Char}
    (hc : c ∈ L.foldl (fun acc a => replaceChar acc a '_') cs) :
    c = '_' ∨ (c ∈ cs ∧ c ∉ L) := by
  induction L generalizing cs with
  | nil => exact .inr ⟨hc, by simp⟩
  | cons a L ih =>
    rw [List.foldl_cons] at hc
    rcases ih hc with h | ⟨hmem, hnot⟩
    · exact .inl h
    · simp only [replaceChar, List.mem_map] at hmem
      obtain ⟨d, hd, hdc⟩ := hmem
      by_cases hda : d = a
      · subst hda
        simp only [if_pos rfl] at hdc
        exact .inl hdc.symm
      · simp only [if_neg hda] at hdc
        subst hdc
        exact .inr ⟨hd, by simp [hda, hnot]⟩

lemma mem_joinWords {c : Char} :
    ∀ {ws : List (List Char)}, c ∈ joinWords ws → c = ' ' ∨ ∃ w ∈ ws, c ∈ w := by
  intro ws
  induction ws with
  | nil => simp [joinWords]
  | cons w ws ih =>
    intro hc
    cases ws with
    | nil =>
      simp only [joinWords] at hc
      exact .inr ⟨w, by simp, hc⟩
    | cons w2 ws2 =>
      simp only [joinWords, List.mem_append, List.mem_cons] at hc
      rcases hc with hc | hc | hc
      · exact .inr ⟨w, by simp, hc⟩
      · exact .inl hc
      · rcases ih hc with h | ⟨w3, hw3, hcw3⟩
        · exact .inl h
        · exact .inr ⟨w3, by simp [hw3], hcw3⟩

/-! ### Helper lemmas: the filename sanitizer -/

lemma cleanCore_chars (s : String) :
    ∀ c ∈ (cleanCore s).toList, c ∉ invalid_chars ∧ pyIsSpace c = false := by
  intro c hc
  simp only [cleanCore, toList_mk, List.mem_map] at hc
  obtain ⟨d, hd, rfl⟩ := hc
  rcases mem_joinWords hd with rfl | ⟨w, hw, hdw⟩
  · simp only [if_pos rfl]
    exact ⟨by decide, by decide⟩
  · have hP : pyIsSpace d = false ∧
        d ∈ invalid_chars.foldl (fun acc c => replaceChar acc c '_') s.toList := by
      refine pySplitAux_chars
        (P := fun d => pyIsSpace d = false ∧
          d ∈ invalid_chars.foldl (fun acc c => replaceChar acc c '_') s.toList)
        _ [] (fun c hc hns => ⟨hns, hc⟩) (by simp) w hw d hdw
    have hdinv : d ∉ invalid_chars := by
      rcases mem_foldl_replaceChar hP.2 with rfl | ⟨_, hni⟩
      · decide
      · exact hni
    have hdsp : d ≠ ' ' := by
      intro h
      rw [h] at hP
      simp [pyIsSpace] at hP
    simp only [if_neg hdsp]
    exact ⟨hdinv, hP.1⟩

lemma cleanCore_fixed (s : String)
    (h : ∀ c ∈ s.toList, c ∉ invalid_chars ∧ pyIsSpace c = false) :
    cleanCore s = s := by
  have hid : invalid_chars.foldl (fun acc c => replaceChar acc c '_') s.toList = s.toList :=
    foldl_replaceChar_id _ _ (fun a _ hmem => (h a hmem).1 ‹a ∈ invalid_chars›)
  unfold cleanCore
  rw [hid]
  rcases hs : s.toList with _ | ⟨a, rest⟩
  · rw [← mk_toList s, hs]
    rfl
  · rw [← hs, pySplitAux_no_space s.toList (fun c hc => (h c hc).2) []]
    rw [if_neg (by simp [show s.data = a :: rest from hs])]
    simp only [List.reverse_nil, List.nil_append, joinWords]
    rw [List.map_congr_left, List.map_id, mk_toList]
    intro c hc
    have : c ≠ ' ' := by
      intro hsp
      have := (h c hc).2
      rw [hsp] at this
      simp [pyIsSpace] at this
    simp [this]

lemma splitext_concat (s : String) : (splitext s).1 ++ (splitext s).2 = s := by
  unfold splitext
  rcases hfind : s.toList.reverse.findIdx? (· = '.') with _ | k
  · simp
  · simp only
    split
    · simp
    · rw [mk_append, List.take_append_drop, mk_toList]

lemma toList_append (a b : String) : (a ++ b).toList = a.toList ++ b.toList := rfl

lemma clean_filename_chars (maxLen : Nat) (s : String) :
    ∀ c ∈ (clean_filename maxLen s).toList, c ∉ invalid_chars ∧ pyIsSpace c = false := by
  intro c hc
  have hsub : ∀ c ∈ (splitext (cleanCore s)).1.toList ++ (splitext (cleanCore s)).2.toList,
      c ∈ (cleanCore s).toList := by
    intro c hc
    rw [← toList_append, splitext_concat] at hc
    exact hc
  unfold clean_filename at hc
  split at hc
  · rw [toList_append, toList_mk] at hc
    rcases List.mem_append.mp hc with hc | hc
    · refine cleanCore_chars s c (hsub c (List.mem_append.mpr (.inl ?_)))
      unfold pySliceTo at hc
      split at hc <;> exact (List.take_sublist _ _).mem hc
    · exact cleanCore_chars s c (hsub c (List.mem_append.mpr (.inr hc)))
  · exact cleanCore_chars s c hc

lemma contains_iff (l : List String) (a : String) : l.contains a = true ↔ a ∈ l := by
  simp [List.contains, List.elem_iff]

/-! ### C5 — filename sanitizer -/

set_option maxRecDepth 4000

/-- C5 (counterexample): sanitizing is not idempotent for every string. For
`"a."` followed by 150 `'b'`s, with the default configured maximum length
100, the extension alone is 151 characters long; the first pass returns the
bare 151-character extension, and sanitizing that again truncates it to 100
characters, a different string. -/
theorem c5_counterexample :
    clean_filename 100 (clean_filename 100 ("a." ++ String.mk (List.replicate 150 'b')))
      ≠ clean_filename 100 ("a." ++ String.mk (List.replicate 150 'b')) := by
  decide

/-- C5 (amended): for every string and configured maximum length, the
sanitized name contains none of the characters `<>:"/\|?*`; the result
always ends with the extension of the sanitized (pre-truncation) name; and
sanitizing an already-sanitized name returns it unchanged whenever the
sanitized result is within the configured maximum length (the sole
exceptions being names whose extension alone exceeds that maximum, as in
the counterexample). -/
theorem c5_sanitizer_amended (maxLen : Nat) (s : String) :
    (∀ c ∈ (clean_filename maxLen s).toList, c ∉ invalid_chars)
    ∧ (∃ p : String, clean_filename maxLen s = p ++ (splitext (cleanCore s)).2)
    ∧ ((clean_filename maxLen s).length ≤ maxLen →
        clean_filename maxLen (clean_filename maxLen s) = clean_filename maxLen s) := by
  refine ⟨fun c hc => (clean_filename_chars maxLen s c hc).1, ?_, ?_⟩
  · unfold clean_filename
    split
    · exact ⟨String.mk (pySliceTo (splitext (cleanCore s)).1.toList
        ((maxLen : Int) - ((splitext (cleanCore s)).2.length : Int))), rfl⟩
    · exact ⟨(splitext (cleanCore s)).1, (splitext_concat _).symm⟩
  · intro hlen
    set r := clean_filename maxLen s with hr
    have hcc : cleanCore r = r := cleanCore_fixed r (hr ▸ clean_filename_chars maxLen s)
    show clean_filename maxLen r = r
    unfold clean_filename
    rw [hcc, if_neg (by omega)]

/-- C5 witness: a concrete in-bounds name on which the amended idempotence
holds. -/
theorem c5_sanitizer_amended_witness :
    (clean_filename 100 "report: final?.pdf").length ≤ 100 ∧
      clean_filename 100 (clean_filename 100 "report: final?.pdf")
        = clean_filename 100 "report: final?.pdf" :=
  ⟨by decide, (c5_sanitizer_amended 100 "report: final?.pdf").2.2 (by decide)⟩

/-! ### C4 — derived processed state -/

/-- C4: `is_processed` is true iff the output path — computed
deterministically from the sanitized stem, the configured suffix and the
fixed `.md` extension, in the input's own parent directory — exists in the
filesystem: false when that path is absent (before any generation), true on
the filesystem produced by a successful generation into that directory, and
false again once the output path is deleted. -/
theorem c4_round_trip (maxLen : Nat) (sfx : String) (fs : List String) (f : InputFile)
    (force renderOk : Bool) :
    (is_processed maxLen sfx fs f = true ↔
        generateOutputFilename maxLen sfx f f.parent ∈ fs)
    ∧ (generateOutputFilename maxLen sfx f f.parent ∉ fs →
        is_processed maxLen sfx fs f = false)
    ∧ (∀ o fs', generate_extraction_file maxLen sfx true fs f f.parent force renderOk
          = .ok (o, fs') → is_processed maxLen sfx fs' f = true)
    ∧ is_processed maxLen sfx
        (deletePath fs (generateOutputFilename maxLen sfx f f.parent)) f = false := by
  refine ⟨contains_iff _ _, ?_, ?_, ?_⟩
  · intro h
    rw [← Bool.not_eq_true, is_processed, contains_iff]
    exact h
  · intro o fs' h
    unfold generate_extraction_file at h
    simp only [Bool.not_true, Bool.false_eq_true, if_false] at h
    split at h
    · exact absurd h (by simp)
    · split at h
      · rw [Except.ok.injEq, Prod.mk.injEq] at h
        rw [is_processed, ← h.2, contains_iff]
        simp
      · exact absurd h (by simp)
  · rw [← Bool.not_eq_true, is_processed, contains_iff, deletePath]
    simp

/-- C4 witness: fresh filesystem, generate, observe the state flip. -/
theorem c4_round_trip_witness :
    (generateOutputFilename 100 "_extraccion" ⟨"/docs", "paper"⟩ "/docs" ∉ ([] : List String)
      ∧ is_processed 100 "_extraccion" [] ⟨"/docs", "paper"⟩ = false)
    ∧ generate_extraction_file 100 "_extraccion" true [] ⟨"/docs", "paper"⟩ "/docs" false true
        = .ok (generateOutputFilename 100 "_extraccion" ⟨"/docs", "paper"⟩ "/docs",
               [generateOutputFilename 100 "_extraccion" ⟨"/docs", "paper"⟩ "/docs"])
    ∧ is_processed 100 "_extraccion"
        [generateOutputFilename 100 "_extraccion" ⟨"/docs", "paper"⟩ "/docs"]
        ⟨"/docs", "paper"⟩ = true := by
  refine ⟨⟨by decide, ?_⟩, by rfl, ?_⟩
  · exact (c4_round_trip 100 "_extraccion" [] ⟨"/docs", "paper"⟩ false true).2.1 (by decide)
  · exact (c4_round_trip 100 "_extraccion" [] ⟨"/docs", "paper"⟩ false true).2.2.1
      (generateOutputFilename 100 "_extraccion" ⟨"/docs", "paper"⟩ "/docs")
      [generateOutputFilename 100 "_extraccion" ⟨"/docs", "paper"⟩ "/docs"] (by rfl)

/-! ### Helper lemmas: the configuration dictionary -/

/-- The key list of a dictionary. -/
def dictKeys (m : CDict) : List String := m.map Prod.fst

lemma dictGet_cons (p : String × CVal) (rest : CDict) (q : String) :
    dictGet (p :: rest) q = if p.1 = q then some p.2 else dictGet rest q := by
  by_cases h : p.1 = q <;> simp [dictGet, List.find?_cons, h]

lemma dictGet_dictSet (m : CDict) (k : String) (v : CVal) (q : String) :
    dictGet (dictSet m k v) q = if q = k then some v else dictGet m q := by
  induction m with
  | nil =>
    by_cases hq : q = k
    · simp [dictSet, dictGet_cons, hq]
    · have hkq : ¬ k = q := fun h => hq h.symm
      simp [dictSet, dictGet_cons, hkq, hq, dictGet]
  | cons p rest ih =>
    by_cases hp : p.1 = k
    · rw [show dictSet (p :: rest) k v = (k, v) :: rest from by simp [dictSet, hp]]
      by_cases hq : q = k
      · simp [dictGet_cons, hq]
      · rw [dictGet_cons, dictGet_cons, if_neg (fun h => hq h.symm), if_neg hq,
          if_neg (fun h : p.1 = q => hq (hp ▸ h).symm)]
    · rw [show dictSet (p :: rest) k v = p :: dictSet rest k v from by simp [dictSet, hp]]
      by_cases hq : q = k
      · rw [dictGet_cons, if_neg (fun h : p.1 = q => hp (hq ▸ h)), ih, if_pos hq, if_pos hq]
      · rw [dictGet_cons, dictGet_cons, ih, if_neg hq, if_neg hq]

lemma mem_dictKeys_dictSet {m : CDict} {k : String} {v : CVal} {q : String}
    (h : q ∈ dictKeys (dictSet m k v)) : q ∈ dictKeys m ∨ q = k := by
  induction m with
  | nil => simpa [dictSet, dictKeys] using h
  | cons p rest ih =>
    by_cases hp : p.1 = k
    · rw [show dictSet (p :: rest) k v = (k, v) :: rest from by simp [dictSet, hp]] at h
      rcases List.mem_cons.mp h with h | h
      · exact .inr h
      · exact .inl (by simp [dictKeys] at h ⊢; exact .inr h)
    · rw [show dictSet (p :: rest) k v = p :: dictSet rest k v from by simp [dictSet, hp]] at h
      rcases List.mem_cons.mp h with h | h
      · exact .inl (by simp [dictKeys, h])
      · rcases ih h with h | h
        · exact .inl (by simp [dictKeys] at h ⊢; exact .inr h)
        · exact .inr h

lemma nodup_dictKeys_dictSet (m : CDict) (k : String) (v : CVal)
    (h : (dictKeys m).Nodup) : (dictKeys (dictSet m k v)).Nodup := by
  induction m with
  | nil => simp [dictSet, dictKeys]
  | cons p rest ih =>
    rw [show dictKeys (p :: rest) = p.1 :: dictKeys rest from rfl, List.nodup_cons] at h
    by_cases hp : p.1 = k
    · rw [show dictSet (p :: rest) k v = (k, v) :: rest from by simp [dictSet, hp]]
      rw [show dictKeys ((k, v) :: rest) = k :: dictKeys rest from rfl, List.nodup_cons]
      exact ⟨hp ▸ h.1, h.2⟩
    · rw [show dictSet (p :: rest) k v = p :: dictSet rest k v from by simp [dictSet, hp]]
      rw [show dictKeys (p :: dictSet rest k v) = p.1 :: dictKeys (dictSet rest k v) from rfl,
        List.nodup_cons]
      refine ⟨fun hmem => ?_, ih h.2⟩
      rcases mem_dictKeys_dictSet hmem with hmem | hmem
      · exact h.1 hmem
      · exact hp hmem

lemma nodup_dictKeys_dictUpdate (ov : CDict) :
    ∀ base : CDict, (dictKeys base).Nodup → (dictKeys (dictUpdate base ov)).Nodup := by
  induction ov with
  | nil => exact fun base h => h
  | cons p rest ih =>
    intro base h
    exact ih (dictSet base p.1 p.2) (nodup_dictKeys_dictSet base p.1 p.2 h)

lemma dictGet_eq_none_iff (m : CDict) (q : String) :
    dictGet m q = none ↔ q ∉ dictKeys m := by
  unfold dictGet
  rw [Option.map_eq_none', List.find?_eq_none]
  simp only [dictKeys, List.mem_map, decide_eq_true_eq, Prod.exists, Prod.forall]
  constructor
  · intro h ⟨a, b, hab, hq⟩
    exact h a b hab hq
  · intro h a b hab haq
    exact h ⟨a, b, hab, haq⟩

lemma dictGet_dictUpdate (ov : CDict) (h : (dictKeys ov).Nodup) :
    ∀ (base : CDict) (q : String),
      dictGet (dictUpdate base ov) q = (dictGet ov q).or (dictGet base q) := by
  induction ov with
  | nil => intro base q; simp [dictUpdate, dictGet]
  | cons p rest ih =>
    intro base q
    rw [show dictKeys (p :: rest) = p.1 :: dictKeys rest from rfl, List.nodup_cons] at h
    rw [show dictUpdate base (p :: rest) = dictUpdate (dictSet base p.1 p.2) rest from rfl]
    rw [ih h.2, dictGet_cons]
    by_cases hq : p.1 = q
    · have hrest : dictGet rest q = none :=
        (dictGet_eq_none_iff rest q).mpr (fun hm => h.1 (hq ▸ hm))
      rw [hrest, if_pos hq, dictGet_dictSet, if_pos hq.symm]
      rfl
    · rw [if_neg hq, dictGet_dictSet, if_neg (fun hqk : q = p.1 => hq hqk.symm)]

lemma default_config_nodup : (dictKeys default_config).Nodup := by decide

lemma get_config_ok_nodup {st : ConfigState} {cfg : CDict} {st' : ConfigState}
    (hwf : ∀ c, st.cache = some c → (dictKeys c).Nodup)
    (h : get_config st = .ok (cfg, st')) : (dictKeys cfg).Nodup := by
  unfold get_config at h
  rcases hc : st.cache with _ | c
  · rw [hc] at h
    rcases hs : st.stored with _ | doc
    · rw [hs] at h; exact absurd h (by simp)
    · rcases doc with _ | s | m <;> rw [hs] at h
      · exact absurd h (by simp)
      · exact absurd h (by simp)
      · rw [Except.ok.injEq, Prod.mk.injEq] at h
        exact h.1 ▸ nodup_dictKeys_dictUpdate m default_config default_config_nodup
  · rw [hc] at h
    rw [Except.ok.injEq, Prod.mk.injEq] at h
    exact h.1 ▸ hwf c hc

/-! ### C3 — `get_value` never fails -/

/-- C3 (counterexample): with a persisted document present whose content
does not parse, `get_config_value` raises (`yaml.YAMLError` propagates; only
`FileNotFoundError` is caught), contradicting "never fails in every store
state". -/
theorem c3_counterexample :
    get_config_value { stored := some .malformed, cache := none, backups := [] }
      "log_level" none = .error .yamlError := rfl

/-- C3 (amended): `get_value(key, fallback)` never fails when the store is
uninitialized (returns the compiled-in default for the key, else the caller
fallback) or when the persisted document parses as a mapping (returns the
persisted value if present, else the compiled-in default, else the caller
fallback). With a persisted document that does not parse, it raises. -/
theorem c3_get_value_amended :
    (∀ (key : String) (fb : Option CVal) (st : ConfigState),
       st.cache = none → st.stored = none →
       get_config_value st key fb = .ok ((dictGet default_config key).or fb, st))
    ∧ (∀ (key : String) (fb : Option CVal) (st : ConfigState) (m : CDict),
        st.cache = none → st.stored = some (.mapping m) → (dictKeys m).Nodup →
        get_config_value st key fb
          = .ok (((dictGet m key).or (dictGet default_config key)).or fb,
                 { st with cache := some (dictUpdate default_config m) })) := by
  constructor
  · intro key fb st hc hs
    unfold get_config_value get_config
    rw [hc, hs]
  · intro key fb st m hc hs hnd
    unfold get_config_value get_config
    rw [hc, hs]
    simp only [Except.ok.injEq, Prod.mk.injEq]
    exact ⟨by rw [dictGet_dictUpdate m hnd default_config key], trivial⟩

/-- C3 witness: a store persisting `log_level: DEBUG` serves the persisted
value without raising. -/
theorem c3_get_value_amended_witness :
    get_config_value
      { stored := some (.mapping [("log_level", CVal.str "DEBUG")]),
        cache := none, backups := [] } "log_level" none
      = .ok (((dictGet [("log_level", CVal.str "DEBUG")] "log_level").or
              (dictGet default_config "log_level")).or none,
             { stored := some (.mapping [("log_level", CVal.str "DEBUG")]),
               cache := some (dictUpdate default_config [("log_level", CVal.str "DEBUG")]),
               backups := [] }) :=
  c3_get_value_amended.2 "log_level" none
    { stored := some (.mapping [("log_level", CVal.str "DEBUG")]),
      cache := none, backups := [] }
    [("log_level", CVal.str "DEBUG")] rfl rfl (by decide)

/-! ### C6 — defaults and set/get round trip -/

/-- C6: on an uninitialized store, `get_value` returns exactly the
compiled-in default of every supported key; and after a successful
`set_value(key, v)` the effective configuration (`get_config`) maps `key`
to `v`. -/
theorem c6_config_defaults :
    (∀ (key : String) (v : CVal), dictGet default_config key = some v →
       get_config_value uninitState key none = .ok (some v, uninitState))
    ∧ (∀ (st : ConfigState) (key : String) (v : CVal) (st₂ : ConfigState),
        (∀ c, st.cache = some c → (dictKeys c).Nodup) →
        set_config st key v = .ok st₂ →
        ∃ cfg st₃, get_config st₂ = .ok (cfg, st₃) ∧ dictGet cfg key = some v) := by
  constructor
  · intro key v h
    have hbase : get_config_value uninitState key none
        = .ok ((dictGet default_config key).or none, uninitState) := rfl
    rw [hbase, h]
    rfl
  · intro st key v st₂ hwf h
    unfold set_config at h
    rcases hgc : get_config st with e | ⟨cfg, st'⟩
    · rw [hgc] at h
      rcases e with _ | _ | _ | _
      · rw [Except.ok.injEq] at h
        subst h
        refine ⟨_, _, rfl, ?_⟩
        rw [dictGet_dictUpdate _ (nodup_dictKeys_dictSet _ _ _ default_config_nodup),
          dictGet_dictSet, if_pos rfl]
        rfl
      · exact absurd h (by simp)
      · exact absurd h (by simp)
      · exact absurd h (by simp)
    · rw [hgc] at h
      simp only [Except.ok.injEq] at h
      have hnd : (dictKeys cfg).Nodup := get_config_ok_nodup hwf hgc
      subst h
      refine ⟨_, _, rfl, ?_⟩
      rw [dictGet_dictUpdate _ (nodup_dictKeys_dictSet _ _ _ hnd),
        dictGet_dictSet, if_pos rfl]
      rfl

/-- C6 witness: the default of `output_suffix` is served on an
uninitialized store, and setting `log_level` on an uninitialized store
makes the effective configuration carry the new value. -/
theorem c6_config_defaults_witness :
    dictGet default_config "output_suffix" = some (.str "_extraccion")
    ∧ get_config_value uninitState "output_suffix" none
        = .ok (some (.str "_extraccion"), uninitState)
    ∧ ∃ cfg st₃,
        get_config { stored := some (.mapping (dictSet default_config "log_level"
            (.str "DEBUG"))), cache := none, backups := [] } = .ok (cfg, st₃)
          ∧ dictGet cfg "log_level" = some (.str "DEBUG") := by
  refine ⟨rfl, c6_config_defaults.1 "output_suffix" (.str "_extraccion") rfl, ?_⟩
  exact c6_config_defaults.2 uninitState "log_level" (.str "DEBUG")
    { stored := some (.mapping (dictSet default_config "log_level" (.str "DEBUG"))),
      cache := none, backups := [] }
    (fun c hc => by simp [uninitState] at hc) rfl

/-! ### C7 — restore on a malformed backup -/

/-- C7: restoring from a backup whose content does not parse raises
(`ValueError`, the spec's `MalformedDocument`) and leaves the configuration
state untouched: the parse check precedes the pre-restore backup and the
write, so no backup is taken and nothing is written. -/
theorem c7_restore_malformed (st : ConfigState) :
    restore_config st (some .malformed) = (.error .valueError, st) := rfl

/-! ### Helper lemmas: the CSV processing loop -/

lemma foldl_processStep (start : Int) (writeOk : Nat → Bool) :
    ∀ (l : List (Nat × Record)) (n : Nat) (files : List (String × String)),
      l.foldl (processStep start writeOk) (n, files)
        = (n + (l.filter (fun ir => writeOk ir.1)).length,
           files ++ (l.filter (fun ir => writeOk ir.1)).map
             (fun ir => (format03d (start + (ir.1 : Int)) ++ ".md",
                         create_markdown_content ir.2))) := by
  intro l
  induction l with
  | nil => intro n files; simp
  | cons ir rest ih =>
    intro n files
    rw [List.foldl_cons]
    by_cases h : writeOk ir.1
    · rw [show processStep start writeOk (n, files) ir
          = (n + 1, files ++ [(format03d (start + (ir.1 : Int)) ++ ".md",
                               create_markdown_content ir.2)]) from by simp [processStep, h]]
      rw [ih, List.filter_cons_of_pos (by simpa using h)]
      simp only [List.length_cons, List.map_cons, Prod.mk.injEq]
      exact ⟨by omega, by simp⟩
    · rw [show processStep start writeOk (n, files) ir = (n, files) from by
        simp [processStep, h]]
      rw [ih, List.filter_cons_of_neg (by simpa using h)]

lemma process_csv_ok (d : CsvDoc) (cols : List String) (start : Int) (writeOk : Nat → Bool)
    (hv : validate_csv (some d) = .ok cols) (hne : d.records ≠ []) :
    process_csv (some d) start writeOk
      = .ok ((d.records.enum.filter (fun ir => writeOk ir.1)).length,
             (d.records.enum.filter (fun ir => writeOk ir.1)).map
               (fun ir => (format03d (start + (ir.1 : Int)) ++ ".md",
                           create_markdown_content ir.2))) := by
  have hie : d.records.isEmpty = false := by
    rcases hr : d.records with _ | _
    · exact absurd hr hne
    · rfl
  simp only [process_csv, read_csv_data, hv, hie, Bool.false_eq_true, if_false, bind,
    Except.bind]
  rw [foldl_processStep]
  simp only [Nat.zero_add, List.nil_append]
  rfl

/-! ### C1 — header-only CSV -/

/-- C1: a header-only CSV (all required columns present, zero data rows)
passes validation, but `process_csv` raises `ValueError` out of
`read_csv_data`, whose `if not data` check conflates an empty row list with
an unreadable file — it does not return 0. This contradicts the
repository's own test `test_process_csv_empty_file`, which asserts that
this input yields a return value of 0 and no `.md` files. -/
theorem c1_header_only_raises :
    validate_csv (some headerOnlyDoc) = .ok ["source", "doi", "title", "abstract"]
    ∧ process_csv (some headerOnlyDoc) 1 (fun _ => true) = .error .valueError :=
  ⟨rfl, rfl⟩

/-! ### C8 — per-row failure isolation -/

/-- C8: for a decodable CSV that passes column validation and has at least
one data row, a per-row write failure is caught and the loop continues with
the next row in order; the operation returns the count of rows actually
written. But the claim's "raises only when the CSV itself cannot be read"
fails on the zero-row case: the header-only document is readable and passes
validation, yet `process_csv` raises — the same divergence (contradicted by
the repository's own test) as C1. -/
theorem c8_per_row_isolation :
    (∀ (d : CsvDoc) (cols : List String) (start : Int) (writeOk : Nat → Bool),
       validate_csv (some d) = .ok cols → d.records ≠ [] →
       process_csv (some d) start writeOk
         = .ok ((d.records.enum.filter (fun ir => writeOk ir.1)).length,
                (d.records.enum.filter (fun ir => writeOk ir.1)).map
                  (fun ir => (format03d (start + (ir.1 : Int)) ++ ".md",
                              create_markdown_content ir.2))))
    ∧ (∃ cols, validate_csv (some headerOnlyDoc) = .ok cols)
    ∧ process_csv (some headerOnlyDoc) 1 (fun _ => true) = .error .valueError :=
  ⟨fun d cols start writeOk hv hne => process_csv_ok d cols start writeOk hv hne,
   ⟨["source", "doi", "title", "abstract"], rfl⟩, rfl⟩

/-- C8 witness: a two-row CSV where the write of row 0 fails; processing
continues, writes row 1 as `002.md`, and reports a count of 1. -/
theorem c8_per_row_isolation_witness :
    process_csv (some ⟨some ["source", "doi", "title", "abstract"],
        [[("title", "A")], [("title", "B")]]⟩) 1 (fun i => i == 1)
      = .ok (1, [("002.md", create_markdown_content [("title", "B")])]) := by
  rw [c8_per_row_isolation.1 ⟨some ["source", "doi", "title", "abstract"],
      [[("title", "A")], [("title", "B")]]⟩ ["source", "doi", "title", "abstract"] 1
      (fun i => i == 1) rfl (by decide)]
  rfl

/-! ### C9 — numbered output filenames -/

/-- C9: with every write succeeding, row `i` (from 0) is written to the
file named `(start + i)` zero-padded to width 3 plus `.md`; the width is
not capped at 999 (`format03d 1000 = "1000"`), and `start = 10` puts the
first row at `010.md`. -/
theorem c9_numbered_filenames (d : CsvDoc) (cols : List String) (start : Int)
    (hv : validate_csv (some d) = .ok cols) (hne : d.records ≠ []) :
    (∃ files, process_csv (some d) start (fun _ => true) = .ok (d.records.length, files)
       ∧ ∀ i (hi : i < d.records.length),
           files[i]? = some (format03d (start + (i : Int)) ++ ".md",
                             create_markdown_content d.records[i]))
    ∧ format03d 1000 ++ ".md" = "1000.md"
    ∧ format03d (10 + (0 : Int)) ++ ".md" = "010.md" := by
  refine ⟨?_, by decide, by decide⟩
  have h := process_csv_ok d cols start (fun _ => true) hv hne
  simp only [List.filter_true] at h
  refine ⟨d.records.enum.map (fun ir => (format03d (start + (ir.1 : Int)) ++ ".md",
    create_markdown_content ir.2)), ?_, ?_⟩
  · rw [h]
    simp [List.enum_length]
  · intro i hi
    rw [List.getElem?_map, List.getElem?_enum, List.getElem?_eq_getElem hi]
    rfl

/-- C9 witness: single-row CSV with `start_number = 10` produces `010.md`
(and not `001.md`). -/
theorem c9_numbered_filenames_witness :
    ∃ files, process_csv (some ⟨some ["source", "doi", "title", "abstract"],
          [[("source", "Journal A"), ("doi", "10.1234/a"), ("title", "Article A"),
            ("abstract", "Abstract A")]]⟩) 10 (fun _ => true)
        = .ok (1, files)
      ∧ files[0]? = some ("010.md", create_markdown_content
          [("source", "Journal A"), ("doi", "10.1234/a"), ("title", "Article A"),
           ("abstract", "Abstract A")]) := by
  obtain ⟨files, h1, h2⟩ := (c9_numbered_filenames
    ⟨some ["source", "doi", "title", "abstract"],
     [[("source", "Journal A"), ("doi", "10.1234/a"), ("title", "Article A"),
       ("abstract", "Abstract A")]]⟩
    ["source", "doi", "title", "abstract"] 10 rfl (by decide)).1
  refine ⟨files, h1, ?_⟩
  exact h2 0 (by decide)

/-! ### C10 — note body construction -/

lemma rget_map_strip (record : Record) (k : String) :
    rget (record.map (fun p => (p.1, pyStrip p.2))) k = (rget record k).map pyStrip := by
  induction record with
  | nil => rfl
  | cons p rest ih =>
    by_cases h : p.1 = k
    · simp [rget, List.find?_cons, h]
    · have hd : decide (p.1 = k) = false := by simp [h]
      simp only [rget, List.map_cons, List.find?_cons] at ih ⊢
      simp only [hd]
      exact ih

lemma strip_getD_map (o : Option String) :
    pyStrip ((o.map pyStrip).getD "") = pyStrip (o.getD "") := by
  cases o with
  | none => rfl
  | some x => simp [pyStrip_idem]

/-- C10: the four required fields are stripped of surrounding whitespace
before the note body is built (stripping the record's values first changes
nothing); each line of the abstract is itself stripped before the fixed
2-space indent is prepended, so interior indentation is not preserved; and
an empty or absent abstract renders as the single line of two spaces. -/
theorem c10_markdown_body :
    (∀ record : Record,
       create_markdown_content (record.map (fun p => (p.1, pyStrip p.2)))
         = create_markdown_content record)
    ∧ (∀ a : String, formatAbstractLines a
        = String.intercalate "\n" ((splitLines a).map (fun l => "  " ++ pyStrip l)))
    ∧ abstractFormatted "" = "  "
    ∧ create_markdown_content
        [("source", "s"), ("doi", "d"), ("title", "t"),
         ("abstract", "  line1 \n    line2\t")]
        = "---\nsource: s\ndoi: d\ntitle: \"t\"\nabstract: |\n  line1\n  line2\nestado:\n  - procesado\ntags:\n  - documento\n  - investigacion\n---"
    ∧ create_markdown_content [("source", "s"), ("doi", "d"), ("title", "t")]
        = "---\nsource: s\ndoi: d\ntitle: \"t\"\nabstract: |\n  \nestado:\n  - procesado\ntags:\n  - documento\n  - investigacion\n---" := by
  refine ⟨?_, ?_, rfl, by decide, by decide⟩
  · intro record
    simp only [create_markdown_content, rget_map_strip, strip_getD_map]
  · intro a
    unfold formatAbstractLines
    congr 1
    apply List.map_congr_left
    intro l _
    by_cases h : pyStrip l = ""
    · simp [h]
    · simp [h]

/-! ### C2 — byte-size filter -/

lemma filesizeLoop_emit (u : String) (us : List String) (q : ℚ) (h : q < 1024) :
    filesizeLoop (u :: us) q = formatF1 q ++ " " ++ u := by
  simp [filesizeLoop, h]

lemma filesizeLoop_skip (u : String) (us : List String) (q : ℚ) (h : ¬ q < 1024) :
    filesizeLoop (u :: us) q = filesizeLoop us (q / 1024) := by
  simp [filesizeLoop, h]

lemma roundHalfEven_eval (q : ℚ) (f : ℤ) (hf : ⌊q⌋ = f) :
    roundHalfEven q = if q - f < 1/2 then f
      else if 1/2 < q - f then f + 1
      else if f % 2 = 0 then f else f + 1 := by
  unfold roundHalfEven
  rw [hf]

lemma formatF1_eval (q : ℚ) (t : ℤ) (h : roundHalfEven (q * 10) = t) :
    formatF1 q = (if t < 0 then "-" else "") ++ toString (t.natAbs / 10) ++ "." ++
      toString (t.natAbs % 10) := by
  unfold formatF1
  rw [h]

/-- C2 (counterexample): `1024^4 = 1099511627776` is a byte count of
`1024^3` bytes or more, yet the filter renders it `"1.0 TB"`, not with unit
GB: after the `GB` iteration the running value is still `1024`, the loop
ends, and the trailing `return` appends `" TB"`. -/
theorem c2_counterexample :
    (1073741824 : ℚ) ≤ 1099511627776
    ∧ filesize_filter (.num 1099511627776) = "1.0 TB"
    ∧ (filesize_filter (.num 1099511627776)).toList.reverse.take 3
        ≠ (" GB").toList.reverse := by
  have heq : filesize_filter (.num 1099511627776) = "1.0 TB" := by
    rw [show filesize_filter (.num 1099511627776)
        = filesizeLoop ["B", "KB", "MB", "GB"] 1099511627776 from rfl]
    rw [filesizeLoop_skip _ _ _ (by norm_num), filesizeLoop_skip _ _ _ (by norm_num),
      filesizeLoop_skip _ _ _ (by norm_num), filesizeLoop_skip _ _ _ (by norm_num)]
    rw [show (1099511627776 : ℚ) / 1024 / 1024 / 1024 / 1024 = 1 from by norm_num]
    rw [show filesizeLoop [] 1 = formatF1 1 ++ " TB" from rfl]
    rw [formatF1_eval 1 10 (by
      rw [roundHalfEven_eval _ 10 (by norm_num [Int.floor_eq_iff])]
      norm_num)]
    decide
  exact ⟨by norm_num, heq, by rw [heq]; decide⟩

/-- C2 (amended): the filter divides by 1024 across the units B, KB, MB,
GB, but the fall-through unit for values that survive the whole ladder is
TB, not GB: counts `q` with `1024^3 ≤ q < 1024^4` are rendered in GB, and
counts of `1024^4 = 1099511627776` or more are rendered in TB. The four
concrete examples hold as stated, and non-numeric input is returned
unchanged as its text rendering. -/
theorem c2_filesize_amended :
    (∀ q : ℚ, 1073741824 ≤ q → q < 1099511627776 →
       filesize_filter (.num q) = formatF1 (q / 1073741824) ++ " GB")
    ∧ (∀ q : ℚ, 1099511627776 ≤ q →
       filesize_filter (.num q) = formatF1 (q / 1099511627776) ++ " TB")
    ∧ filesize_filter (.num 500) = "500.0 B"
    ∧ filesize_filter (.num 1500) = "1.5 KB"
    ∧ filesize_filter (.num 2048000) = "2.0 MB"
    ∧ filesize_filter (.num 3221225472) = "3.0 GB"
    ∧ (∀ s : String, filesize_filter (.nonNum s) = s) := by
  have h1024 : (0 : ℚ) < 1024 := by norm_num
  have hGB : ∀ q : ℚ, 1073741824 ≤ q → q < 1099511627776 →
      filesize_filter (.num q) = formatF1 (q / 1073741824) ++ " GB" := by
    intro q hlo hhi
    rw [show filesize_filter (.num q) = filesizeLoop ["B", "KB", "MB", "GB"] q from rfl]
    rw [filesizeLoop_skip _ _ _ (by linarith)]
    rw [filesizeLoop_skip _ _ _ (by rw [not_lt, le_div_iff₀ h1024]; linarith)]
    rw [filesizeLoop_skip _ _ _ (by
      rw [div_div, not_lt, le_div_iff₀ (by norm_num : (0:ℚ) < 1024 * 1024)]
      linarith)]
    rw [filesizeLoop_emit _ _ _ (by
      rw [div_div, div_div, div_lt_iff₀ (by norm_num : (0:ℚ) < 1024 * (1024 * 1024))]
      linarith)]
    rw [div_div, div_div, String.append_assoc]
    norm_num
    rfl
  have hTB : ∀ q : ℚ, 1099511627776 ≤ q →
      filesize_filter (.num q) = formatF1 (q / 1099511627776) ++ " TB" := by
    intro q hlo
    rw [show filesize_filter (.num q) = filesizeLoop ["B", "KB", "MB", "GB"] q from rfl]
    rw [filesizeLoop_skip _ _ _ (by linarith)]
    rw [filesizeLoop_skip _ _ _ (by rw [not_lt, le_div_iff₀ h1024]; linarith)]
    rw [filesizeLoop_skip _ _ _ (by
      rw [div_div, not_lt, le_div_iff₀ (by norm_num : (0:ℚ) < 1024 * 1024)]
      linarith)]
    rw [filesizeLoop_skip _ _ _ (by
      rw [div_div, div_div, not_lt,
        le_div_iff₀ (by norm_num : (0:ℚ) < 1024 * (1024 * 1024))]
      linarith)]
    rw [show ∀ r : ℚ, filesizeLoop [] r = formatF1 r ++ " TB" from fun r => rfl]
    rw [div_div, div_div, div_div]
    norm_num
  refine ⟨hGB, hTB, ?_, ?_, ?_, ?_, fun s => rfl⟩
  · rw [show filesize_filter (.num 500) = filesizeLoop ["B", "KB", "MB", "GB"] 500 from rfl]
    rw [filesizeLoop_emit _ _ _ (by norm_num)]
    rw [formatF1_eval 500 5000 (by
      rw [roundHalfEven_eval _ 5000 (by norm_num [Int.floor_eq_iff])]
      norm_num)]
    decide
  · rw [show filesize_filter (.num 1500)
        = filesizeLoop ["B", "KB", "MB", "GB"] 1500 from rfl]
    rw [filesizeLoop_skip _ _ _ (by norm_num), filesizeLoop_emit _ _ _ (by norm_num)]
    rw [formatF1_eval (1500 / 1024) 15 (by
      rw [roundHalfEven_eval _ 14 (by norm_num [Int.floor_eq_iff])]
      norm_num)]
    decide
  · rw [show filesize_filter (.num 2048000)
        = filesizeLoop ["B", "KB", "MB", "GB"] 2048000 from rfl]
    rw [filesizeLoop_skip _ _ _ (by norm_num), filesizeLoop_skip _ _ _ (by norm_num),
      filesizeLoop_emit _ _ _ (by norm_num)]
    rw [show (2048000 : ℚ) / 1024 / 1024 = 125 / 64 from by norm_num]
    rw [formatF1_eval (125 / 64) 20 (by
      rw [roundHalfEven_eval _ 19 (by norm_num [Int.floor_eq_iff])]
      norm_num)]
    decide
  · rw [hGB 3221225472 (by norm_num) (by norm_num)]
    rw [show (3221225472 : ℚ) / 1073741824 = 3 from by norm_num]
    rw [formatF1_eval 3 30 (by
      rw [roundHalfEven_eval _ 30 (by norm_num [Int.floor_eq_iff])]
      norm_num)]
    decide

/-- C2 witness: `3 * 1024^3 = 3221225472` lies in the GB band and the
amended GB clause applies to it. -/
theorem c2_filesize_amended_witness :
    (1073741824 : ℚ) ≤ 3221225472 ∧ (3221225472 : ℚ) < 1099511627776
    ∧ filesize_filter (.num 3221225472)
        = formatF1 ((3221225472 : ℚ) / 1073741824) ++ " GB" :=
  ⟨by norm_num, by norm_num,
   c2_filesize_amended.1 3221225472 (by norm_num) (by norm_num)⟩

end Adn
